import Mathlib

set_option maxHeartbeats 1000000
set_option maxRecDepth 100000

/-! Shallow embedding of the Pocket Watch recurrence engine
    (src/src/components/PocketWatchApp.tsx). Dates are local calendar
    dates (no time component), modelled as year/month/day triples of
    integers; all date-fns operations used by the source are modelled
    on that representation. Every `while` loop of the source is
    modelled by a fuel-bounded recursion returning `Option` (`none`
    when the fuel runs out, `some` when the loop exits as in the
    source). -/

/-- A local calendar date (start-of-day); `month` is 1-based (1..12). -/
structure YMD where
  year : Int
  month : Int
  day : Int
  deriving DecidableEq, Repr

/-- Gregorian leap-year rule. -/
def isLeapYear (y : Int) : Bool :=
  (y % 4 == 0 && y % 100 != 0) || y % 400 == 0

/-- Number of days in a month of a given year. -/
def daysInMonth (y m : Int) : Int :=
  if m = 2 then (if isLeapYear y then 29 else 28)
  else if m = 4 ∨ m = 6 ∨ m = 9 ∨ m = 11 then 30
  else 31

/-- A structurally valid calendar date. -/
def YMD.Valid (d : YMD) : Prop :=
  1 ≤ d.month ∧ d.month ≤ 12 ∧ 1 ≤ d.day ∧ d.day ≤ daysInMonth d.year d.month

instance (d : YMD) : Decidable d.Valid := by
  unfold YMD.Valid; infer_instance

/-- The calendar day after `d`. -/
def nextDay (d : YMD) : YMD :=
  if d.day < daysInMonth d.year d.month then ⟨d.year, d.month, d.day + 1⟩
  else if d.month < 12 then ⟨d.year, d.month + 1, 1⟩
  else ⟨d.year + 1, 1, 1⟩

/-- The calendar day before `d`. -/
def prevDay (d : YMD) : YMD :=
  if 1 < d.day then ⟨d.year, d.month, d.day - 1⟩
  else if 1 < d.month then ⟨d.year, d.month - 1, daysInMonth d.year (d.month - 1)⟩
  else ⟨d.year - 1, 12, 31⟩

/-- date-fns `addDays(d, n)` for a non-negative count `n`. -/
def addDaysNat (d : YMD) : Nat → YMD
  | 0 => d
  | n + 1 => nextDay (addDaysNat d n)

/-- Going back `n` calendar days. -/
def subDaysNat (d : YMD) : Nat → YMD
  | 0 => d
  | n + 1 => prevDay (subDaysNat d n)

/-- date-fns `addWeeks(d, n)` for `n ≥ 0`. -/
def addWeeksN (d : YMD) (n : Nat) : YMD := addDaysNat d (7 * n)

/-- date-fns `subWeeks(d, n)` for `n ≥ 0`. -/
def subWeeksN (d : YMD) (n : Nat) : YMD := subDaysNat d (7 * n)

/-- date-fns `addMonths(d, n)` (also `subMonths(d, n) = addMonths(d, -n)`):
    calendar-month arithmetic with the day-of-month clamped to the length
    of the target month. -/
def addMonthsInt (d : YMD) (n : Int) : YMD :=
  let tm : Int := 12 * d.year + (d.month - 1) + n
  let y : Int := tm / 12
  let m : Int := tm % 12 + 1
  ⟨y, m, min d.day (daysInMonth y m)⟩

/-- date-fns `subMonths(d, n)`. -/
def subMonthsInt (d : YMD) (n : Int) : YMD := addMonthsInt d (-n)

/-- date-fns `startOfDay`: the identity on date-only values. -/
def startOfDay (d : YMD) : YMD := d

/-- date-fns `startOfMonth`. -/
def startOfMonth (d : YMD) : YMD := ⟨d.year, d.month, 1⟩

/-- date-fns `endOfMonth` (as a date-only value). -/
def endOfMonth (d : YMD) : YMD := ⟨d.year, d.month, daysInMonth d.year d.month⟩

/-- date-fns `isBefore` on date-only values: chronological (lexicographic)
    strict comparison. -/
def isBefore (a b : YMD) : Bool :=
  a.year < b.year ||
    (a.year == b.year &&
      (a.month < b.month || (a.month == b.month && a.day < b.day)))

/-- date-fns `isAfter`. -/
def isAfter (a b : YMD) : Bool := isBefore b a

/-- date-fns `isEqual` on date-only values. -/
def isEqual (a b : YMD) : Bool := a == b

/-- date-fns `isWithinInterval(d, {start, end})`: inclusive on both ends. -/
def withinInterval (d s e : YMD) : Bool :=
  !(isBefore d s) && !(isBefore e d)

/-- The JavaScript `new Date(y, m, day)` constructor for `day ≥ 1`
    (month given here 1-based): day-of-month overflow rolls over into
    the following month(s) rather than clamping. -/
def mkDateRoll (y m day : Int) : YMD :=
  addDaysNat ⟨y, m, 1⟩ (day - 1).toNat

/-- The guard floor `new Date("1900-01-01")` used by the source. -/
def d1900 : YMD := ⟨1900, 1, 1⟩

/-! ## The data model (src/unnamed/part_000 and the zod schemas) -/

inductive BillFrequency where
  | oneTime | weekly | biWeekly | triWeekly | monthly
  deriving DecidableEq, Repr

inductive PayFrequency where
  | weekly | biWeekly | monthly
  deriving DecidableEq, Repr

structure Bill where
  id : String
  name : String
  amount : Int
  nextDueDate : YMD
  frequency : BillFrequency
  isExistingRecurring : Bool
  deriving DecidableEq, Repr

/-- The pay-period configuration; `lastPayday` is optional to model the
    `!payPeriodConfig.lastPayday` guard of the source. -/
structure PayPeriodConfig where
  payAmount : Int
  lastPayday : Option YMD
  payFrequency : PayFrequency
  deriving DecidableEq, Repr

structure MonthlySummary where
  income : Int
  bills : Int
  net : Int
  deriving DecidableEq, Repr

/-- The derived outputs of the main `useEffect`; `none` models `null`. -/
structure Outputs where
  leftoverMoney : Option Int
  currentPayPeriodDates : Option (YMD × YMD)
  monthlySummary : Option MonthlySummary
  billsDueThisPayPeriod : List Bill
  deriving DecidableEq, Repr

/-! ## Occurrence advancer (calculateNextOccurrence / calculatePreviousOccurrence) -/

def calculateNextOccurrence (currentDate : YMD) (frequency : BillFrequency) : YMD :=
  match frequency with
  | .weekly => addWeeksN currentDate 1
  | .biWeekly => addWeeksN currentDate 2
  | .triWeekly => addWeeksN currentDate 3
  | .monthly => addMonthsInt currentDate 1
  | _ => currentDate

def calculatePreviousOccurrence (currentDate : YMD) (frequency : BillFrequency) : YMD :=
  match frequency with
  | .weekly => subWeeksN currentDate 1
  | .biWeekly => subWeeksN currentDate 2
  | .triWeekly => subWeeksN currentDate 3
  | .monthly => subMonthsInt currentDate 1
  | _ => currentDate

/-! ## Shared loop shapes of the source -/

/-- `while (isBefore(cur, target)) { adv := next(cur); if (adv == cur) break;
    cur := adv }` — the forward-roll loop used at lines 248-252, 267-271,
    338-342, 357-361, 523-527 and 546-552 of the source. -/
def rollForward (fuel : Nat) (f : BillFrequency) (target a : YMD) : Option YMD :=
  match fuel with
  | 0 => none
  | fuel + 1 =>
    if isBefore a target then
      let advancedDate := startOfDay (calculateNextOccurrence a f)
      if isEqual advancedDate a then some a
      else rollForward fuel f target advancedDate
    else some a

/-- The backward walk of the pay-period / monthly-summary alignment
    (source lines 254-260 and 344-350). -/
def walkBack2 (fuel : Nat) (f : BillFrequency) (s a : YMD) : Option YMD :=
  match fuel with
  | 0 => none
  | fuel + 1 =>
    if isAfter a s || isEqual a s then
      let prevDate := startOfDay (calculatePreviousOccurrence a f)
      if isBefore prevDate s then some a
      else if isEqual prevDate a then some a
      else if isBefore prevDate d1900 then some prevDate
      else walkBack2 fuel f s prevDate
    else some a

/-- Alignment of a recurring bill's anchor to a reference date `s`, as
    performed identically at source lines 246-273 (reference =
    periodStartDate) and 336-363 (reference = currentMonthStart). -/
def alignToRef (fuel : Nat) (f : BillFrequency) (isExistingRecurring : Bool)
    (s a : YMD) : Option YMD :=
  if isExistingRecurring then
    if isBefore a s then rollForward fuel f s a
    else (walkBack2 fuel f s a).map fun x =>
      if isBefore x s then startOfDay (calculateNextOccurrence x f) else x
  else rollForward fuel f s a

/-- The `while(true)` backward walk of `getActualNextDueDate`
    (source lines 529-540). -/
def walkBack1 (fuel : Nat) (f : BillFrequency) (t a : YMD) : Option YMD :=
  match fuel with
  | 0 => none
  | fuel + 1 =>
    let prevDate := startOfDay (calculatePreviousOccurrence a f)
    if isBefore prevDate t && !(isEqual prevDate t) && !(isEqual a t) then
      some (if isBefore a t then startOfDay (calculateNextOccurrence prevDate f) else a)
    else if isEqual prevDate a then some a
    else if isBefore prevDate d1900 then some prevDate
    else walkBack1 fuel f t prevDate

/-! ## Anchor resolver (getActualNextDueDate, source lines 513-555) -/

def getActualNextDueDate (fuel : Nat) (bill : Bill) (todayDate : YMD) : Option YMD :=
  if bill.frequency = .oneTime then some bill.nextDueDate
  else
    let a := startOfDay bill.nextDueDate
    let todayStart := startOfDay todayDate
    if bill.isExistingRecurring then
      if isBefore a todayStart then rollForward fuel bill.frequency todayStart a
      else (walkBack1 fuel bill.frequency todayStart a).map fun x =>
        if isBefore x todayStart then
          startOfDay (calculateNextOccurrence x bill.frequency)
        else x
    else rollForward fuel bill.frequency todayStart a

/-! ## Pay-period locator (source lines 191-228) -/

/-- `while (isBefore(e, today)) { s := e; e := step(e) }`
    (source lines 200-203, 207-210, 220-223). -/
def rollWindow (fuel : Nat) (step : YMD → YMD) (today s e : YMD) :
    Option (YMD × YMD) :=
  match fuel with
  | 0 => none
  | fuel + 1 =>
    if isBefore e today then rollWindow fuel step today e (startOfDay (step e))
    else some (s, e)

def locatePayPeriod (fuel : Nat) (payFrequency : PayFrequency)
    (lastPayday today : YMD) : Option (YMD × YMD) :=
  let resolvedLastPayday := startOfDay lastPayday
  match payFrequency with
  | .weekly =>
    rollWindow fuel (fun d => addWeeksN d 1) today resolvedLastPayday
      (startOfDay (addWeeksN resolvedLastPayday 1))
  | .biWeekly =>
    rollWindow fuel (fun d => addWeeksN d 2) today resolvedLastPayday
      (startOfDay (addWeeksN resolvedLastPayday 2))
  | .monthly =>
    let aligned := startOfDay (mkDateRoll today.year today.month resolvedLastPayday.day)
    let periodStartDate :=
      if isAfter aligned today then subMonthsInt aligned 1 else aligned
    rollWindow fuel (fun d => addMonthsInt d 1) today periodStartDate
      (startOfDay (addMonthsInt periodStartDate 1))

/-! ## Pay-period interval aggregation (source lines 230-291) -/

/-- The per-bill accumulation loop over the pay-period window
    (source lines 275-287); returns the accumulated amount and the
    pushed due-bill entries. -/
def periodLoop (fuel : Nat) (bill : Bill) (s e a : YMD) :
    Option (Int × List Bill) :=
  match fuel with
  | 0 => none
  | fuel + 1 =>
    if isBefore a e then
      let hitAmt : Int := if withinInterval a s (prevDay e) then bill.amount else 0
      let hitList : List Bill :=
        if withinInterval a s (prevDay e) then [{ bill with nextDueDate := a }] else []
      let nextCalculatedDueDate := startOfDay (calculateNextOccurrence a bill.frequency)
      if isEqual nextCalculatedDueDate a then some (hitAmt, hitList)
      else
        match periodLoop fuel bill s e nextCalculatedDueDate with
        | none => none
        | some (t, l) => some (hitAmt + t, hitList ++ l)
    else some (0, [])

/-- Processing of one bill by the pay-period aggregation
    (source lines 233-288). -/
def processBillForPeriod (fuel : Nat) (bill : Bill) (s e : YMD) :
    Option (Int × List Bill) :=
  let billAnchorDate := startOfDay bill.nextDueDate
  if bill.frequency = .oneTime then
    some (if withinInterval billAnchorDate s (prevDay e) then
            (bill.amount, [{ bill with nextDueDate := billAnchorDate }])
          else (0, []))
  else
    (alignToRef fuel bill.frequency bill.isExistingRecurring s billAnchorDate).bind
      (periodLoop fuel bill s e)

/-- `bills.forEach(...)` of the pay-period aggregation. -/
def aggregateBills (fuel : Nat) (bills : List Bill) (s e : YMD) :
    Option (Int × List Bill) :=
  match bills with
  | [] => some (0, [])
  | b :: rest =>
    match processBillForPeriod fuel b s e with
    | none => none
    | some (t, l) =>
      match aggregateBills fuel rest s e with
      | none => none
      | some (t', l') => some (t + t', l ++ l')

/-- Stable insertion used to model the ES2019+ stable
    `Array.prototype.sort` with comparator
    `(a, b) => a.nextDueDate.getTime() - b.nextDueDate.getTime()`. -/
def insertSorted (le : Bill → Bill → Bool) (x : Bill) : List Bill → List Bill
  | [] => [x]
  | y :: ys => if le x y then x :: y :: ys else y :: insertSorted le x ys

def sortBills (le : Bill → Bill → Bool) (l : List Bill) : List Bill :=
  l.foldr (insertSorted le) []

/-- The sort comparator of source line 290: ascending by due date. -/
def dueDateLE (b1 b2 : Bill) : Bool := !(isBefore b2.nextDueDate b1.nextDueDate)

/-! ## Monthly income (source lines 293-321) -/

/-- `while (isAfter(t, monthStart)) t := subMonths(t, 1)` (lines 297-299). -/
def incomeMonthlyRollBack (fuel : Nat) (monthStart t : YMD) : Option YMD :=
  match fuel with
  | 0 => none
  | fuel + 1 =>
    if isAfter t monthStart then
      incomeMonthlyRollBack fuel monthStart (subMonthsInt t 1)
    else some t

/-- `while (t < monthStart || t.getDate() != anchorDay) { t := addMonths(t,1);
    t := new Date(t.year, t.month, anchorDay) }` (lines 300-303). -/
def incomeMonthlyAlign (fuel : Nat) (monthStart : YMD) (anchorDay : Int)
    (t : YMD) : Option YMD :=
  match fuel with
  | 0 => none
  | fuel + 1 =>
    if isBefore t monthStart || !(t.day == anchorDay) then
      let t1 := addMonthsInt t 1
      incomeMonthlyAlign fuel monthStart anchorDay
        (startOfDay (mkDateRoll t1.year t1.month anchorDay))
    else some t

/-- `while (isAfter(t, monthStart)) t := subWeeks(t, k)` (lines 311-313). -/
def incomeWeekRollBack (fuel : Nat) (monthStart : YMD) (k : Nat) (t : YMD) :
    Option YMD :=
  match fuel with
  | 0 => none
  | fuel + 1 =>
    if isAfter t monthStart then incomeWeekRollBack fuel monthStart k (subWeeksN t k)
    else some t

/-- `while (isBefore(t, monthStart)) t := addWeeks(t, k)` (lines 314-316). -/
def incomeWeekRollFwd (fuel : Nat) (monthStart : YMD) (k : Nat) (t : YMD) :
    Option YMD :=
  match fuel with
  | 0 => none
  | fuel + 1 =>
    if isBefore t monthStart then incomeWeekRollFwd fuel monthStart k (addWeeksN t k)
    else some t

/-- `while (isWithinInterval(t, [monthStart, monthEnd])) { income += pay;
    t := addWeeks(t, k) }` (lines 317-320). -/
def incomeWeekAccum (fuel : Nat) (pay : Int) (monthStart monthEnd : YMD) (k : Nat)
    (t : YMD) : Option Int :=
  match fuel with
  | 0 => none
  | fuel + 1 =>
    if withinInterval t monthStart monthEnd then
      (incomeWeekAccum fuel pay monthStart monthEnd k (addWeeksN t k)).map (pay + ·)
    else some 0

/-- `calculatedMonthlyIncome` (source lines 293-321). -/
def calculatedMonthlyIncome (fuel : Nat) (payAmount : Int) (lastPayday : YMD)
    (payFrequency : PayFrequency) (monthStart monthEnd : YMD) : Option Int :=
  match payFrequency with
  | .monthly =>
    (incomeMonthlyRollBack fuel monthStart (startOfDay lastPayday)).bind fun t0 =>
    (incomeMonthlyAlign fuel monthStart lastPayday.day t0).map fun t =>
    if withinInterval t monthStart monthEnd then payAmount else 0
  | pf =>
    let payIntervalWeeks : Nat := if pf = .weekly then 1 else 2
    (incomeWeekRollBack fuel monthStart payIntervalWeeks (startOfDay lastPayday)).bind
      fun t0 =>
    (incomeWeekRollFwd fuel monthStart payIntervalWeeks t0).bind fun t1 =>
    incomeWeekAccum fuel payAmount monthStart monthEnd payIntervalWeeks t1

/-! ## Monthly bills total (source lines 323-377) -/

/-- The per-bill accumulation loop over the calendar month
    (source lines 365-376). -/
def monthLoop (fuel : Nat) (bill : Bill) (monthStart monthEnd a : YMD) :
    Option Int :=
  match fuel with
  | 0 => none
  | fuel + 1 =>
    if !(isAfter a monthEnd) then
      let hit : Int := if withinInterval a monthStart monthEnd then bill.amount else 0
      let nextCalculatedDueDate := startOfDay (calculateNextOccurrence a bill.frequency)
      if bill.frequency ≠ .oneTime ∧ isEqual nextCalculatedDueDate a then some hit
      else (monthLoop fuel bill monthStart monthEnd nextCalculatedDueDate).map (hit + ·)
    else some 0

/-- Processing of one bill by the monthly-summary aggregation
    (source lines 324-377). -/
def processBillForMonth (fuel : Nat) (bill : Bill) (monthStart monthEnd : YMD) :
    Option Int :=
  let billAnchorDate := startOfDay bill.nextDueDate
  if bill.frequency = .oneTime then
    some (if withinInterval billAnchorDate monthStart monthEnd then bill.amount else 0)
  else
    (alignToRef fuel bill.frequency bill.isExistingRecurring monthStart billAnchorDate).bind
      (monthLoop fuel bill monthStart monthEnd)

def monthlyBillsTotal (fuel : Nat) (bills : List Bill) (monthStart monthEnd : YMD) :
    Option Int :=
  match bills with
  | [] => some 0
  | b :: rest =>
    match processBillForMonth fuel b monthStart monthEnd with
    | none => none
    | some t =>
      (monthlyBillsTotal fuel rest monthStart monthEnd).map (t + ·)

/-! ## The main derivation (the useEffect at source lines 178-385) -/

def computeOutputs (fuel : Nat) (payPeriodConfig : Option PayPeriodConfig)
    (bills : List Bill) (today : YMD) : Option Outputs :=
  match payPeriodConfig with
  | none => some ⟨none, none, none, []⟩
  | some cfg =>
    match cfg.lastPayday with
    | none => some ⟨none, none, none, []⟩
    | some lastPayday =>
      let todayStart := startOfDay today
      let currentMonthStart := startOfDay (startOfMonth todayStart)
      let currentMonthEnd := startOfDay (endOfMonth todayStart)
      match locatePayPeriod fuel cfg.payFrequency lastPayday todayStart with
      | none => none
      | some (periodStartDate, periodEndDate) =>
        match aggregateBills fuel bills periodStartDate periodEndDate with
        | none => none
        | some (totalBillsInPayPeriod, dueBillsInPeriod) =>
          match calculatedMonthlyIncome fuel cfg.payAmount (startOfDay lastPayday)
              cfg.payFrequency currentMonthStart currentMonthEnd with
          | none => none
          | some income =>
            match monthlyBillsTotal fuel bills currentMonthStart currentMonthEnd with
            | none => none
            | some monthBills =>
              some ⟨some (cfg.payAmount - totalBillsInPayPeriod),
                    some (periodStartDate, periodEndDate),
                    some ⟨income, monthBills, income - monthBills⟩,
                    sortBills dueDateLE dueBillsInPeriod⟩

/-! ## Supporting lemmas -/

theorem YMD.eq_iff {a b : YMD} :
    a = b ↔ a.year = b.year ∧ a.month = b.month ∧ a.day = b.day := by
  cases a; cases b; simp

theorem isBefore_iff {a b : YMD} : isBefore a b = true ↔
    (a.year < b.year ∨ (a.year = b.year ∧
      (a.month < b.month ∨ (a.month = b.month ∧ a.day < b.day)))) := by
  simp [isBefore]

theorem isEqual_iff {a b : YMD} : isEqual a b = true ↔ a = b := by
  simp [isEqual]

theorem isBefore_eq_false_iff {a b : YMD} : isBefore a b = false ↔
    ¬(a.year < b.year ∨ (a.year = b.year ∧
      (a.month < b.month ∨ (a.month = b.month ∧ a.day < b.day)))) := by
  rw [← isBefore_iff]
  cases isBefore a b <;> simp

theorem isBefore_irrefl (a : YMD) : isBefore a a = false := by
  rw [isBefore_eq_false_iff]; omega

theorem isBefore_asymm {a b : YMD} (h : isBefore a b = true) :
    isBefore b a = false := by
  rw [isBefore_iff] at h; rw [isBefore_eq_false_iff]; omega

theorem isBefore_trans {a b c : YMD} (h1 : isBefore a b = true)
    (h2 : isBefore b c = true) : isBefore a c = true := by
  rw [isBefore_iff] at h1 h2 ⊢; omega

theorem eq_of_not_isBefore {a b : YMD} (h1 : isBefore a b = false)
    (h2 : isBefore b a = false) : a = b := by
  rw [isBefore_eq_false_iff] at h1 h2
  rw [YMD.eq_iff]
  omega

theorem daysInMonth_lb (y m : Int) : 28 ≤ daysInMonth y m := by
  unfold daysInMonth; split_ifs <;> omega

theorem daysInMonth_ub (y m : Int) : daysInMonth y m ≤ 31 := by
  unfold daysInMonth; split_ifs <;> omega

theorem valid_nextDay {d : YMD} (h : d.Valid) : (nextDay d).Valid := by
  obtain ⟨h1, h2, h3, h4⟩ := h
  have hb := daysInMonth_lb d.year (d.month + 1)
  have hc := daysInMonth_lb (d.year + 1) 1
  unfold nextDay YMD.Valid
  split_ifs <;> simp_all <;> omega

theorem valid_prevDay {d : YMD} (h : d.Valid) : (prevDay d).Valid := by
  obtain ⟨h1, h2, h3, h4⟩ := h
  have hb := daysInMonth_lb d.year (d.month - 1)
  have hc : daysInMonth (d.year - 1) 12 = 31 := by unfold daysInMonth; norm_num
  unfold prevDay YMD.Valid
  split_ifs <;> simp_all <;> omega

theorem prevDay_nextDay {d : YMD} (h : d.Valid) : prevDay (nextDay d) = d := by
  obtain ⟨h1, h2, h3, h4⟩ := h
  have hc : daysInMonth d.year 12 = 31 := by unfold daysInMonth; norm_num
  by_cases hlt : d.day < daysInMonth d.year d.month
  · simp only [nextDay, if_pos hlt, prevDay]
    rw [if_pos (show (1:Int) < d.day + 1 by omega)]
    rw [YMD.eq_iff]; dsimp only; refine ⟨rfl, rfl, by omega⟩
  · by_cases hm : d.month < 12
    · simp only [nextDay, if_neg hlt, if_pos hm, prevDay]
      rw [if_neg (show ¬((1:Int) < 1) by omega),
        if_pos (show (1:Int) < d.month + 1 by omega)]
      rw [YMD.eq_iff]
      dsimp only
      have hmm : d.month + 1 - 1 = d.month := by omega
      rw [hmm]
      refine ⟨rfl, rfl, by omega⟩
    · simp only [nextDay, if_neg hlt, if_neg hm, prevDay]
      rw [if_neg (show ¬((1:Int) < 1) by omega),
        if_neg (show ¬((1:Int) < 1) by omega)]
      rw [YMD.eq_iff]
      dsimp only
      have hm12 : d.month = 12 := by omega
      rw [hm12] at hlt h4
      rw [hc] at hlt h4
      refine ⟨by omega, by omega, by omega⟩

theorem nextDay_prevDay {d : YMD} (h : d.Valid) : nextDay (prevDay d) = d := by
  obtain ⟨h1, h2, h3, h4⟩ := h
  have hb := daysInMonth_lb d.year (d.month - 1)
  have hc : daysInMonth (d.year - 1) 12 = 31 := by unfold daysInMonth; norm_num
  by_cases hgt : 1 < d.day
  · simp only [prevDay, if_pos hgt, nextDay]
    rw [if_pos (show d.day - 1 < daysInMonth d.year d.month by omega)]
    rw [YMD.eq_iff]; dsimp only; refine ⟨rfl, rfl, by omega⟩
  · by_cases hm : 1 < d.month
    · simp only [prevDay, if_neg hgt, if_pos hm, nextDay]
      rw [if_neg (show ¬(daysInMonth d.year (d.month - 1) <
            daysInMonth d.year (d.month - 1)) by omega),
        if_pos (show d.month - 1 < 12 by omega)]
      rw [YMD.eq_iff]
      dsimp only
      refine ⟨rfl, by omega, by omega⟩
    · simp only [prevDay, if_neg hgt, if_neg hm, nextDay]
      rw [if_neg (show ¬((31:Int) < daysInMonth (d.year - 1) 12) by omega),
        if_neg (show ¬((12:Int) < 12) by omega)]
      rw [YMD.eq_iff]
      dsimp only
      refine ⟨by omega, by omega, by omega⟩

theorem isBefore_nextDay {d : YMD} (h : d.Valid) : isBefore d (nextDay d) = true := by
  obtain ⟨h1, h2, h3, h4⟩ := h
  unfold nextDay
  split_ifs with hA hB <;> rw [isBefore_iff] <;> dsimp only <;> omega

theorem isBefore_prevDay {d : YMD} (h : d.Valid) : isBefore (prevDay d) d = true := by
  obtain ⟨h1, h2, h3, h4⟩ := h
  unfold prevDay
  split_ifs with hA hB <;> rw [isBefore_iff] <;> dsimp only <;> omega

theorem valid_addDaysNat {d : YMD} (h : d.Valid) (n : Nat) :
    (addDaysNat d n).Valid := by
  induction n with
  | zero => exact h
  | succ n ih => exact valid_nextDay ih

theorem valid_subDaysNat {d : YMD} (h : d.Valid) (n : Nat) :
    (subDaysNat d n).Valid := by
  induction n with
  | zero => exact h
  | succ n ih => exact valid_prevDay ih

theorem subDaysNat_prevDay (d : YMD) (n : Nat) :
    subDaysNat (prevDay d) n = prevDay (subDaysNat d n) := by
  induction n with
  | zero => rfl
  | succ n ih =>
    show prevDay (subDaysNat (prevDay d) n) = prevDay (prevDay (subDaysNat d n))
    rw [ih]

theorem addDaysNat_nextDay (d : YMD) (n : Nat) :
    addDaysNat (nextDay d) n = nextDay (addDaysNat d n) := by
  induction n with
  | zero => rfl
  | succ n ih =>
    show nextDay (addDaysNat (nextDay d) n) = nextDay (nextDay (addDaysNat d n))
    rw [ih]

theorem subDaysNat_addDaysNat {d : YMD} (h : d.Valid) (n : Nat) :
    subDaysNat (addDaysNat d n) n = d := by
  induction n with
  | zero => rfl
  | succ n ih =>
    show prevDay (subDaysNat (nextDay (addDaysNat d n)) n) = d
    rw [← subDaysNat_prevDay, prevDay_nextDay (valid_addDaysNat h n), ih]

theorem addDaysNat_subDaysNat {d : YMD} (h : d.Valid) (n : Nat) :
    addDaysNat (subDaysNat d n) n = d := by
  induction n with
  | zero => rfl
  | succ n ih =>
    show nextDay (addDaysNat (prevDay (subDaysNat d n)) n) = d
    rw [← addDaysNat_nextDay, nextDay_prevDay (valid_subDaysNat h n), ih]

theorem isBefore_addDaysNat {d : YMD} (h : d.Valid) (n : Nat) (hn : 1 ≤ n) :
    isBefore d (addDaysNat d n) = true := by
  induction n with
  | zero => omega
  | succ n ih =>
    rcases Nat.eq_zero_or_pos n with h0 | hpos
    · subst h0; exact isBefore_nextDay h
    · exact isBefore_trans (ih hpos) (isBefore_nextDay (valid_addDaysNat h n))

theorem isBefore_subDaysNat {d : YMD} (h : d.Valid) (n : Nat) (hn : 1 ≤ n) :
    isBefore (subDaysNat d n) d = true := by
  induction n with
  | zero => omega
  | succ n ih =>
    rcases Nat.eq_zero_or_pos n with h0 | hpos
    · subst h0; exact isBefore_prevDay h
    · exact isBefore_trans (isBefore_prevDay (valid_subDaysNat h n)) (ih hpos)

theorem valid_addWeeksN {d : YMD} (h : d.Valid) (n : Nat) : (addWeeksN d n).Valid :=
  valid_addDaysNat h (7 * n)

theorem valid_subWeeksN {d : YMD} (h : d.Valid) (n : Nat) : (subWeeksN d n).Valid :=
  valid_subDaysNat h (7 * n)

theorem subWeeksN_addWeeksN {d : YMD} (h : d.Valid) (n : Nat) :
    subWeeksN (addWeeksN d n) n = d := subDaysNat_addDaysNat h (7 * n)

theorem addWeeksN_subWeeksN {d : YMD} (h : d.Valid) (n : Nat) :
    addWeeksN (subWeeksN d n) n = d := addDaysNat_subDaysNat h (7 * n)

theorem isBefore_addWeeksN {d : YMD} (h : d.Valid) (n : Nat) (hn : 1 ≤ n) :
    isBefore d (addWeeksN d n) = true :=
  isBefore_addDaysNat h (7 * n) (by omega)

theorem isBefore_subWeeksN {d : YMD} (h : d.Valid) (n : Nat) (hn : 1 ≤ n) :
    isBefore (subWeeksN d n) d = true :=
  isBefore_subDaysNat h (7 * n) (by omega)

theorem valid_addMonthsInt {d : YMD} (h : d.Valid) (n : Int) :
    (addMonthsInt d n).Valid := by
  obtain ⟨h1, h2, h3, h4⟩ := h
  unfold addMonthsInt YMD.Valid
  dsimp only
  set tm : Int := 12 * d.year + (d.month - 1) + n with htm
  have hdl := daysInMonth_lb (tm / 12) (tm % 12 + 1)
  refine ⟨by omega, by omega, ?_, min_le_right _ _⟩
  exact le_min h3 (by omega)

theorem isBefore_addMonthsInt_one {d : YMD} (h : d.Valid) :
    isBefore d (addMonthsInt d 1) = true := by
  obtain ⟨h1, h2, h3, h4⟩ := h
  rw [isBefore_iff]
  unfold addMonthsInt
  dsimp only
  omega

theorem isBefore_subMonthsInt_one {d : YMD} (h : d.Valid) :
    isBefore (subMonthsInt d 1) d = true := by
  obtain ⟨h1, h2, h3, h4⟩ := h
  rw [isBefore_iff]
  unfold subMonthsInt addMonthsInt
  dsimp only
  omega

/-- Week-based repeat frequencies (all except one-time and monthly). -/
def weekBased (f : BillFrequency) : Prop :=
  f = .weekly ∨ f = .biWeekly ∨ f = .triWeekly

instance (f : BillFrequency) : Decidable (weekBased f) := by
  unfold weekBased; infer_instance

theorem valid_next {d : YMD} (h : d.Valid) (f : BillFrequency) :
    (calculateNextOccurrence d f).Valid := by
  cases f <;> simp only [calculateNextOccurrence]
  · exact h
  · exact valid_addWeeksN h 1
  · exact valid_addWeeksN h 2
  · exact valid_addWeeksN h 3
  · exact valid_addMonthsInt h 1

theorem valid_prev {d : YMD} (h : d.Valid) (f : BillFrequency) :
    (calculatePreviousOccurrence d f).Valid := by
  cases f <;> simp only [calculatePreviousOccurrence]
  · exact h
  · exact valid_subWeeksN h 1
  · exact valid_subWeeksN h 2
  · exact valid_subWeeksN h 3
  · exact valid_addMonthsInt h (-1)

theorem next_strict {d : YMD} (h : d.Valid) {f : BillFrequency}
    (hf : f ≠ .oneTime) : isBefore d (calculateNextOccurrence d f) = true := by
  cases f <;> simp only [calculateNextOccurrence]
  · exact absurd rfl hf
  · exact isBefore_addWeeksN h 1 (by omega)
  · exact isBefore_addWeeksN h 2 (by omega)
  · exact isBefore_addWeeksN h 3 (by omega)
  · exact isBefore_addMonthsInt_one h

theorem prev_strict {d : YMD} (h : d.Valid) {f : BillFrequency}
    (hf : f ≠ .oneTime) : isBefore (calculatePreviousOccurrence d f) d = true := by
  cases f <;> simp only [calculatePreviousOccurrence]
  · exact absurd rfl hf
  · exact isBefore_subWeeksN h 1 (by omega)
  · exact isBefore_subWeeksN h 2 (by omega)
  · exact isBefore_subWeeksN h 3 (by omega)
  · exact isBefore_subMonthsInt_one h

theorem week_next_prev {d : YMD} (h : d.Valid) {f : BillFrequency}
    (hf : weekBased f) :
    calculateNextOccurrence (calculatePreviousOccurrence d f) f = d := by
  rcases hf with rfl | rfl | rfl <;>
    simp only [calculateNextOccurrence, calculatePreviousOccurrence] <;>
    exact addWeeksN_subWeeksN h _

theorem week_prev_next {d : YMD} (h : d.Valid) {f : BillFrequency}
    (hf : weekBased f) :
    calculatePreviousOccurrence (calculateNextOccurrence d f) f = d := by
  rcases hf with rfl | rfl | rfl <;>
    simp only [calculateNextOccurrence, calculatePreviousOccurrence] <;>
    exact subWeeksN_addWeeksN h _

theorem min_day_dim {a y m : Int} (ha : a ≤ 28) : min a (daysInMonth y m) = a :=
  min_eq_left (le_trans ha (daysInMonth_lb y m))

theorem subMonthsInt_addMonthsInt_of_day_le {d : YMD} (h : d.Valid)
    (h28 : d.day ≤ 28) : subMonthsInt (addMonthsInt d 1) 1 = d := by
  obtain ⟨h1, h2, h3, h4⟩ := h
  unfold subMonthsInt addMonthsInt
  dsimp only
  simp only [min_day_dim h28]
  rw [YMD.eq_iff]
  dsimp only
  refine ⟨by omega, by omega, rfl⟩

theorem addMonthsInt_subMonthsInt_of_day_le {d : YMD} (h : d.Valid)
    (h28 : d.day ≤ 28) : addMonthsInt (subMonthsInt d 1) 1 = d := by
  obtain ⟨h1, h2, h3, h4⟩ := h
  unfold subMonthsInt addMonthsInt
  dsimp only
  simp only [min_day_dim h28]
  rw [YMD.eq_iff]
  dsimp only
  refine ⟨by omega, by omega, rfl⟩

theorem isBefore_of_le_of_lt {a b c : YMD} (h1 : isBefore b a = false)
    (h2 : isBefore b c = true) : isBefore a c = true := by
  rw [isBefore_eq_false_iff] at h1; rw [isBefore_iff] at h2 ⊢; omega

theorem isBefore_of_lt_of_le {a b c : YMD} (h1 : isBefore a b = true)
    (h2 : isBefore c b = false) : isBefore a c = true := by
  rw [isBefore_eq_false_iff] at h2; rw [isBefore_iff] at h1 ⊢; omega

theorem ne_of_isBefore {a b : YMD} (h : isBefore a b = true) : a ≠ b := by
  rw [isBefore_iff] at h; rw [Ne, YMD.eq_iff]; omega

theorem isBefore_of_not_lt_of_ne {a b : YMD} (h1 : isBefore a b = false)
    (h2 : a ≠ b) : isBefore b a = true := by
  rw [isBefore_eq_false_iff] at h1; rw [Ne, YMD.eq_iff] at h2
  rw [isBefore_iff]; omega

theorem weekBased_ne_oneTime {f : BillFrequency} (hf : weekBased f) :
    f ≠ .oneTime := by
  rcases hf with rfl | rfl | rfl <;> simp

theorem rollForward_succ (fuel : Nat) (f : BillFrequency) (target a : YMD) :
    rollForward (fuel + 1) f target a =
      if isBefore a target then
        let advancedDate := startOfDay (calculateNextOccurrence a f)
        if isEqual advancedDate a then some a
        else rollForward fuel f target advancedDate
      else some a := rfl

theorem next_ne {a : YMD} (ha : a.Valid) {f : BillFrequency}
    (hf : f ≠ .oneTime) :
    isEqual (startOfDay (calculateNextOccurrence a f)) a = false := by
  rw [Bool.eq_false_iff]
  intro hq
  rw [isEqual_iff] at hq
  have := next_strict ha hf
  rw [startOfDay] at hq
  rw [hq] at this
  rw [isBefore_irrefl] at this
  exact Bool.false_ne_true this

theorem rollForward_spec {f : BillFrequency} (hf : f ≠ .oneTime) {target : YMD} :
    ∀ (fuel : Nat) (a d : YMD), a.Valid →
    rollForward fuel f target a = some d →
    d.Valid ∧ isBefore d target = false := by
  intro fuel
  induction fuel with
  | zero => intro a d _ h; exact absurd h (by simp [rollForward])
  | succ fuel ih =>
    intro a d ha h
    rw [rollForward_succ] at h
    by_cases hlt : isBefore a target = true
    · rw [if_pos hlt] at h
      simp only [next_ne ha hf, if_neg Bool.false_ne_true] at h
      exact ih _ _ (valid_next ha f) h
    · rw [if_neg hlt] at h
      obtain rfl : a = d := by injection h
      exact ⟨ha, Bool.eq_false_iff.mpr hlt⟩

theorem rollForward_stay {f : BillFrequency} {target d : YMD}
    (hd : isBefore d target = false) {fuel : Nat} (hfuel : 1 ≤ fuel) :
    rollForward fuel f target d = some d := by
  obtain ⟨k, rfl⟩ : ∃ k, fuel = k + 1 := ⟨fuel - 1, by omega⟩
  rw [rollForward_succ, if_neg (by rw [hd]; exact Bool.false_ne_true)]

theorem rollForward_week_spec {f : BillFrequency} (hf : weekBased f) {target : YMD} :
    ∀ (fuel : Nat) (a d : YMD), a.Valid → isBefore a target = true →
    rollForward fuel f target a = some d →
    d.Valid ∧ isBefore d target = false ∧
      isBefore (calculatePreviousOccurrence d f) target = true := by
  intro fuel
  induction fuel with
  | zero => intro a d _ _ h; exact absurd h (by simp [rollForward])
  | succ fuel ih =>
    intro a d ha hlt h
    rw [rollForward_succ, if_pos hlt] at h
    simp only [next_ne ha (weekBased_ne_oneTime hf), if_neg Bool.false_ne_true] at h
    by_cases hlt2 : isBefore (startOfDay (calculateNextOccurrence a f)) target = true
    · exact ih _ _ (valid_next ha f) hlt2 h
    · have hfuel1 : 1 ≤ fuel := by
        by_contra hz
        obtain rfl : fuel = 0 := by omega
        exact absurd h (by simp [rollForward])
      rw [rollForward_stay (Bool.eq_false_iff.mpr hlt2) hfuel1] at h
      obtain rfl : startOfDay (calculateNextOccurrence a f) = d := by injection h
      refine ⟨valid_next ha f, Bool.eq_false_iff.mpr hlt2, ?_⟩
      rw [startOfDay, week_prev_next ha hf]
      exact hlt

theorem startOfDay_eq (d : YMD) : startOfDay d = d := rfl

theorem walkBack1_succ (fuel : Nat) (f : BillFrequency) (t a : YMD) :
    walkBack1 (fuel + 1) f t a =
      if isBefore (startOfDay (calculatePreviousOccurrence a f)) t &&
         !(isEqual (startOfDay (calculatePreviousOccurrence a f)) t) &&
         !(isEqual a t) then
        some (if isBefore a t then
          startOfDay (calculateNextOccurrence
            (startOfDay (calculatePreviousOccurrence a f)) f)
        else a)
      else if isEqual (startOfDay (calculatePreviousOccurrence a f)) a then some a
      else if isBefore (startOfDay (calculatePreviousOccurrence a f)) d1900 then
        some (startOfDay (calculatePreviousOccurrence a f))
      else walkBack1 fuel f t (startOfDay (calculatePreviousOccurrence a f)) := rfl

theorem walkBack1_spec {f : BillFrequency} (hf : weekBased f) {R : YMD} (hR : R.Valid)
    (h1900 : isBefore R d1900 = false) :
    ∀ (fuel : Nat) (a x : YMD), a.Valid →
    (isBefore a R = false ∨
      (isBefore a R = true ∧ isBefore (calculateNextOccurrence a f) R = false)) →
    walkBack1 fuel f R a = some x →
    x.Valid ∧
      (isBefore x R = true → isBefore (calculateNextOccurrence x f) R = false) ∧
      (isBefore x R = false → isBefore (calculatePreviousOccurrence x f) R = true) := by
  intro fuel
  induction fuel with
  | zero => intro a x _ _ h; exact absurd h (by simp [walkBack1])
  | succ fuel ih =>
    intro a x ha hinv h
    have hfne := weekBased_ne_oneTime hf
    have hprevv : (calculatePreviousOccurrence a f).Valid := valid_prev ha f
    have hpa : isBefore (calculatePreviousOccurrence a f) a = true := prev_strict ha hfne
    rw [walkBack1_succ] at h
    simp only [startOfDay_eq] at h
    by_cases hC : (isBefore (calculatePreviousOccurrence a f) R &&
        !(isEqual (calculatePreviousOccurrence a f) R) && !(isEqual a R)) = true
    · rw [if_pos hC] at h
      have hc1 : isBefore (calculatePreviousOccurrence a f) R = true := by
        rcases Bool.and_eq_true_iff.mp (Bool.and_eq_true_iff.mp hC).1 with ⟨u, _⟩
        exact u
      by_cases haR : isBefore a R = true
      · rw [if_pos haR] at h
        have hx : x = a := by
          have hx0 : calculateNextOccurrence (calculatePreviousOccurrence a f) f = a :=
            week_next_prev ha hf
          injection h with h2
          rw [← h2, hx0]
        subst hx
        rcases hinv with hl | ⟨_, hnext⟩
        · rw [haR] at hl; exact absurd hl (by simp)
        · exact ⟨ha, fun _ => hnext, fun habs => by rw [haR] at habs; exact absurd habs (by simp)⟩
      · rw [if_neg haR] at h
        injection h with h2
        subst h2
        exact ⟨ha, fun htrue => absurd htrue haR, fun _ => hc1⟩
    · rw [if_neg hC] at h
      by_cases hEq : isEqual (calculatePreviousOccurrence a f) a = true
      · exfalso
        have hpq := hpa
        rw [isEqual_iff.mp hEq] at hpq
        rw [isBefore_irrefl] at hpq
        exact absurd hpq (by simp)
      · rw [if_neg hEq] at h
        have hCf : (isBefore (calculatePreviousOccurrence a f) R &&
            !(isEqual (calculatePreviousOccurrence a f) R) && !(isEqual a R)) = false :=
          Bool.eq_false_iff.mpr hC
        have hdis : isBefore (calculatePreviousOccurrence a f) R = false ∨
            isEqual (calculatePreviousOccurrence a f) R = true ∨ isEqual a R = true := by
          by_cases h1 : isBefore (calculatePreviousOccurrence a f) R = true
          · by_cases h2 : isEqual (calculatePreviousOccurrence a f) R = true
            · exact Or.inr (Or.inl h2)
            · by_cases h3 : isEqual a R = true
              · exact Or.inr (Or.inr h3)
              · exfalso
                apply hC
                rw [h1, Bool.eq_false_iff.mpr h2, Bool.eq_false_iff.mpr h3]
                rfl
          · exact Or.inl (Bool.eq_false_iff.mpr h1)
        by_cases h19 : isBefore (calculatePreviousOccurrence a f) d1900 = true
        · rw [if_pos h19] at h
          injection h with h2
          subst h2
          have hpR : isBefore (calculatePreviousOccurrence a f) R = true :=
            isBefore_of_lt_of_le h19 h1900
          have haR : isEqual a R = true := by
            rcases hdis with hd1 | hd2 | hd3
            · rw [hpR] at hd1; exact absurd hd1 (by simp)
            · exfalso
              have := hpR
              rw [isEqual_iff.mp hd2] at this
              rw [isBefore_irrefl] at this
              exact absurd this (by simp)
            · exact hd3
          refine ⟨hprevv, fun _ => ?_, fun habs => by rw [hpR] at habs; exact absurd habs (by simp)⟩
          rw [week_next_prev ha hf, isEqual_iff.mp haR, isBefore_irrefl]
        · rw [if_neg h19] at h
          apply ih _ x hprevv ?_ h
          rcases hdis with hd1 | hd2 | hd3
          · exact Or.inl hd1
          · rw [isEqual_iff.mp hd2]
            exact Or.inl (isBefore_irrefl R)
          · by_cases hpR : isBefore (calculatePreviousOccurrence a f) R = true
            · refine Or.inr ⟨hpR, ?_⟩
              rw [week_next_prev ha hf, isEqual_iff.mp hd3, isBefore_irrefl]
            · exact Or.inl (Bool.eq_false_iff.mpr hpR)

theorem walkBack1_refind {f : BillFrequency} (hf : weekBased f) {R d : YMD}
    (hR : R.Valid) (hd : d.Valid) (hge : isBefore d R = false)
    (hprev : isBefore (calculatePreviousOccurrence d f) R = true)
    (h1900 : isBefore R d1900 = false) {fuel2 : Nat} (hfuel : 2 ≤ fuel2) :
    (walkBack1 fuel2 f R d).map
      (fun x => if isBefore x R then startOfDay (calculateNextOccurrence x f) else x) =
      some d := by
  have hfne := weekBased_ne_oneTime hf
  obtain ⟨k, rfl⟩ : ∃ k, fuel2 = k + 1 + 1 := ⟨fuel2 - 2, by omega⟩
  rw [walkBack1_succ]
  simp only [startOfDay_eq]
  by_cases hdR : isEqual d R = true
  · have hdeq : d = R := isEqual_iff.mp hdR
    have hCf : (isBefore (calculatePreviousOccurrence d f) R &&
        !(isEqual (calculatePreviousOccurrence d f) R) && !(isEqual d R)) = false := by
      rw [hdR]; simp
    rw [if_neg (by rw [hCf]; exact Bool.false_ne_true)]
    have hprevne : isEqual (calculatePreviousOccurrence d f) d = false := by
      rw [Bool.eq_false_iff]
      intro hq
      have := prev_strict hd hfne
      rw [isEqual_iff.mp hq] at this
      rw [isBefore_irrefl] at this
      exact absurd this (by simp)
    rw [if_neg (by rw [hprevne]; exact Bool.false_ne_true)]
    by_cases h19 : isBefore (calculatePreviousOccurrence d f) d1900 = true
    · rw [if_pos h19]
      simp only [Option.map_some']
      rw [if_pos hprev, week_next_prev hd hf]
    · rw [if_neg h19]
      rw [walkBack1_succ]
      simp only [startOfDay_eq]
      have hvp : (calculatePreviousOccurrence d f).Valid := valid_prev hd f
      have hpp : isBefore (calculatePreviousOccurrence (calculatePreviousOccurrence d f) f)
          (calculatePreviousOccurrence d f) = true := prev_strict hvp hfne
      have hppR : isBefore (calculatePreviousOccurrence (calculatePreviousOccurrence d f) f)
          R = true := isBefore_trans hpp hprev
      have hppne : isEqual (calculatePreviousOccurrence (calculatePreviousOccurrence d f) f)
          R = false := by
        rw [Bool.eq_false_iff]
        intro hq
        have := hppR
        rw [isEqual_iff.mp hq] at this
        rw [isBefore_irrefl] at this
        exact absurd this (by simp)
      have hpdne : isEqual (calculatePreviousOccurrence d f) R = false := by
        rw [Bool.eq_false_iff]
        intro hq
        have := hprev
        rw [isEqual_iff.mp hq] at this
        rw [isBefore_irrefl] at this
        exact absurd this (by simp)
      rw [if_pos (by rw [hppR, hppne, hpdne]; rfl)]
      rw [if_pos hprev]
      simp only [Option.map_some']
      rw [week_next_prev hvp hf, if_pos hprev, week_next_prev hd hf]
  · have hRd : isBefore R d = true := isBefore_of_not_lt_of_ne hge (by
      intro hq; rw [hq] at hdR; exact hdR (by rw [isEqual]; simp))
    have hprevneR : isEqual (calculatePreviousOccurrence d f) R = false := by
      rw [Bool.eq_false_iff]
      intro hq
      have := hprev
      rw [isEqual_iff.mp hq] at this
      rw [isBefore_irrefl] at this
      exact absurd this (by simp)
    rw [if_pos (by rw [hprev, hprevneR, Bool.eq_false_iff.mpr hdR]; rfl)]
    rw [if_neg (by rw [hge]; exact Bool.false_ne_true)]
    simp only [Option.map_some']
    rw [if_neg (by rw [hge]; exact Bool.false_ne_true)]

theorem rollWindow_succ (fuel : Nat) (step : YMD → YMD) (today s e : YMD) :
    rollWindow (fuel + 1) step today s e =
      if isBefore e today then rollWindow fuel step today e (startOfDay (step e))
      else some (s, e) := rfl

theorem rollWindow_spec (step : YMD → YMD) (today : YMD) :
    ∀ (fuel : Nat) (s e s' e' : YMD),
    rollWindow fuel step today s e = some (s', e') →
    isBefore e' today = false ∧
      (isBefore today s = false → isBefore today s' = false) := by
  intro fuel
  induction fuel with
  | zero => intro s e s' e' h; exact absurd h (by simp [rollWindow])
  | succ fuel ih =>
    intro s e s' e' h
    rw [rollWindow_succ] at h
    by_cases hlt : isBefore e today = true
    · rw [if_pos hlt] at h
      obtain ⟨h1, h2⟩ := ih _ _ _ _ h
      exact ⟨h1, fun _ => h2 (isBefore_asymm hlt)⟩
    · rw [if_neg hlt] at h
      injection h with h
      rw [Prod.mk.injEq] at h
      obtain ⟨rfl, rfl⟩ := h
      exact ⟨Bool.eq_false_iff.mpr hlt, fun hs => hs⟩

theorem within_bounds {a s e : YMD} (he : e.Valid)
    (h : withinInterval a s (prevDay e) = true) :
    isBefore a s = false ∧ isBefore a e = true := by
  rw [withinInterval, Bool.and_eq_true, Bool.not_eq_true', Bool.not_eq_true'] at h
  exact ⟨h.1, isBefore_of_le_of_lt h.2 (isBefore_prevDay he)⟩

theorem periodLoop_succ (fuel : Nat) (bill : Bill) (s e a : YMD) :
    periodLoop (fuel + 1) bill s e a =
      if isBefore a e then
        if isEqual (startOfDay (calculateNextOccurrence a bill.frequency)) a then
          some ((if withinInterval a s (prevDay e) then bill.amount else 0),
                (if withinInterval a s (prevDay e) then
                  [{ bill with nextDueDate := a }] else []))
        else
          match periodLoop fuel bill s e
              (startOfDay (calculateNextOccurrence a bill.frequency)) with
          | none => none
          | some (t, l) =>
            some ((if withinInterval a s (prevDay e) then bill.amount else 0) + t,
                  (if withinInterval a s (prevDay e) then
                    [{ bill with nextDueDate := a }] else []) ++ l)
      else some (0, []) := rfl

theorem periodLoop_mem (bill : Bill) (s e : YMD) (he : e.Valid) :
    ∀ (fuel : Nat) (a : YMD) (t : Int) (l : List Bill),
    periodLoop fuel bill s e a = some (t, l) →
    ∀ b' ∈ l, isBefore b'.nextDueDate s = false ∧ isBefore b'.nextDueDate e = true := by
  intro fuel
  induction fuel with
  | zero => intro a t l h; exact absurd h (by simp [periodLoop])
  | succ fuel ih =>
    intro a t l h b' hb'
    rw [periodLoop_succ] at h
    by_cases hae : isBefore a e = true
    · rw [if_pos hae] at h
      by_cases hbrk : isEqual (startOfDay (calculateNextOccurrence a bill.frequency)) a = true
      · rw [if_pos hbrk] at h
        injection h with h
        obtain rfl : l = (if withinInterval a s (prevDay e) then
            [{ bill with nextDueDate := a }] else []) := (congrArg Prod.snd h).symm
        by_cases hW : withinInterval a s (prevDay e) = true
        · rw [if_pos hW] at hb'
          obtain rfl : b' = { bill with nextDueDate := a } := List.mem_singleton.mp hb'
          exact within_bounds he hW
        · rw [if_neg hW] at hb'
          exact absurd hb' (List.not_mem_nil b')
      · rw [if_neg hbrk] at h
        cases hrec : periodLoop fuel bill s e
            (startOfDay (calculateNextOccurrence a bill.frequency)) with
        | none => rw [hrec] at h; exact absurd h (by simp)
        | some p =>
          obtain ⟨t', l'⟩ := p
          rw [hrec] at h
          injection h with h
          obtain rfl : l = (if withinInterval a s (prevDay e) then
              [{ bill with nextDueDate := a }] else []) ++ l' := (congrArg Prod.snd h).symm
          rcases List.mem_append.mp hb' with hmem | hmem
          · by_cases hW : withinInterval a s (prevDay e) = true
            · rw [if_pos hW] at hmem
              obtain rfl : b' = { bill with nextDueDate := a } := List.mem_singleton.mp hmem
              exact within_bounds he hW
            · rw [if_neg hW] at hmem
              exact absurd hmem (List.not_mem_nil b')
          · exact ih _ _ _ hrec b' hmem
    · rw [if_neg hae] at h
      injection h with h
      obtain rfl : l = [] := (congrArg Prod.snd h).symm
      exact absurd hb' (List.not_mem_nil b')

theorem processBillForPeriod_mem (fuel : Nat) (bill : Bill) (s e : YMD)
    (he : e.Valid) (t : Int) (l : List Bill)
    (h : processBillForPeriod fuel bill s e = some (t, l)) :
    ∀ b' ∈ l, isBefore b'.nextDueDate s = false ∧ isBefore b'.nextDueDate e = true := by
  intro b' hb'
  rw [processBillForPeriod] at h
  by_cases hone : bill.frequency = .oneTime
  · rw [if_pos hone] at h
    injection h with h
    by_cases hW : withinInterval (startOfDay bill.nextDueDate) s (prevDay e) = true
    · rw [if_pos hW] at h
      obtain rfl : l = [{ bill with nextDueDate := startOfDay bill.nextDueDate }] :=
        (congrArg Prod.snd h).symm
      obtain rfl : b' = { bill with nextDueDate := startOfDay bill.nextDueDate } :=
        List.mem_singleton.mp hb'
      exact within_bounds he hW
    · rw [if_neg hW] at h
      obtain rfl : l = [] := (congrArg Prod.snd h).symm
      exact absurd hb' (List.not_mem_nil b')
  · rw [if_neg hone] at h
    obtain ⟨x, _, hloop⟩ := Option.bind_eq_some.mp h
    exact periodLoop_mem bill s e he fuel x t l hloop b' hb'

theorem aggregateBills_mem (s e : YMD) (he : e.Valid) :
    ∀ (bills : List Bill) (fuel : Nat) (t : Int) (l : List Bill),
    aggregateBills fuel bills s e = some (t, l) →
    ∀ b' ∈ l, isBefore b'.nextDueDate s = false ∧ isBefore b'.nextDueDate e = true := by
  intro bills
  induction bills with
  | nil =>
    intro fuel t l h b' hb'
    rw [aggregateBills] at h
    injection h with h
    obtain rfl : l = [] := (congrArg Prod.snd h).symm
    exact absurd hb' (List.not_mem_nil b')
  | cons b rest ih =>
    intro fuel t l h b' hb'
    rw [aggregateBills] at h
    cases h1 : processBillForPeriod fuel b s e with
    | none => rw [h1] at h; exact absurd h (by simp)
    | some p =>
      obtain ⟨t1, l1⟩ := p
      rw [h1] at h
      cases h2 : aggregateBills fuel rest s e with
      | none => rw [h2] at h; exact absurd h (by simp)
      | some q =>
        obtain ⟨t2, l2⟩ := q
        rw [h2] at h
        injection h with h
        obtain rfl : l = l1 ++ l2 := (congrArg Prod.snd h).symm
        rcases List.mem_append.mp hb' with hmem | hmem
        · exact processBillForPeriod_mem fuel b s e he t1 l1 h1 b' hmem
        · exact ih fuel t2 l2 h2 b' hmem

theorem periodLoop_sum (bill : Bill) (s e : YMD) :
    ∀ (fuel : Nat) (a : YMD) (t : Int) (l : List Bill),
    periodLoop fuel bill s e a = some (t, l) →
    t = (l.map Bill.amount).sum := by
  intro fuel
  induction fuel with
  | zero => intro a t l h; exact absurd h (by simp [periodLoop])
  | succ fuel ih =>
    intro a t l h
    rw [periodLoop_succ] at h
    by_cases hae : isBefore a e = true
    · rw [if_pos hae] at h
      by_cases hbrk : isEqual (startOfDay (calculateNextOccurrence a bill.frequency)) a = true
      · rw [if_pos hbrk] at h
        injection h with h
        obtain ⟨rfl, rfl⟩ : t = _ ∧ l = _ := by
          rw [Prod.mk.injEq] at h; exact ⟨h.1.symm, h.2.symm⟩
        by_cases hW : withinInterval a s (prevDay e) = true
        · rw [if_pos hW, if_pos hW]; simp
        · rw [if_neg hW, if_neg hW]; simp
      · rw [if_neg hbrk] at h
        cases hrec : periodLoop fuel bill s e
            (startOfDay (calculateNextOccurrence a bill.frequency)) with
        | none => rw [hrec] at h; exact absurd h (by simp)
        | some p =>
          obtain ⟨t', l'⟩ := p
          rw [hrec] at h
          injection h with h
          obtain ⟨rfl, rfl⟩ : t = _ ∧ l = _ := by
            rw [Prod.mk.injEq] at h; exact ⟨h.1.symm, h.2.symm⟩
          rw [List.map_append, List.sum_append, ← ih _ _ _ hrec]
          by_cases hW : withinInterval a s (prevDay e) = true
          · rw [if_pos hW, if_pos hW]; simp
          · rw [if_neg hW, if_neg hW]; simp
    · rw [if_neg hae] at h
      injection h with h
      obtain ⟨rfl, rfl⟩ : t = 0 ∧ l = [] := by
        rw [Prod.mk.injEq] at h; exact ⟨h.1.symm, h.2.symm⟩
      simp

theorem processBillForPeriod_sum (fuel : Nat) (bill : Bill) (s e : YMD)
    (t : Int) (l : List Bill)
    (h : processBillForPeriod fuel bill s e = some (t, l)) :
    t = (l.map Bill.amount).sum := by
  rw [processBillForPeriod] at h
  by_cases hone : bill.frequency = .oneTime
  · rw [if_pos hone] at h
    injection h with h
    by_cases hW : withinInterval (startOfDay bill.nextDueDate) s (prevDay e) = true
    · rw [if_pos hW] at h
      obtain ⟨rfl, rfl⟩ : t = _ ∧ l = _ := by
        rw [Prod.mk.injEq] at h; exact ⟨h.1.symm, h.2.symm⟩
      simp
    · rw [if_neg hW] at h
      obtain ⟨rfl, rfl⟩ : t = 0 ∧ l = [] := by
        rw [Prod.mk.injEq] at h; exact ⟨h.1.symm, h.2.symm⟩
      simp
  · rw [if_neg hone] at h
    obtain ⟨x, _, hloop⟩ := Option.bind_eq_some.mp h
    exact periodLoop_sum bill s e fuel x t l hloop

theorem aggregateBills_sum (s e : YMD) :
    ∀ (bills : List Bill) (fuel : Nat) (t : Int) (l : List Bill),
    aggregateBills fuel bills s e = some (t, l) →
    t = (l.map Bill.amount).sum := by
  intro bills
  induction bills with
  | nil =>
    intro fuel t l h
    rw [aggregateBills] at h
    injection h with h
    obtain ⟨rfl, rfl⟩ : t = 0 ∧ l = [] := by
      rw [Prod.mk.injEq] at h; exact ⟨h.1.symm, h.2.symm⟩
    simp
  | cons b rest ih =>
    intro fuel t l h
    rw [aggregateBills] at h
    cases h1 : processBillForPeriod fuel b s e with
    | none => rw [h1] at h; exact absurd h (by simp)
    | some p =>
      obtain ⟨t1, l1⟩ := p
      rw [h1] at h
      cases h2 : aggregateBills fuel rest s e with
      | none => rw [h2] at h; exact absurd h (by simp)
      | some q =>
        obtain ⟨t2, l2⟩ := q
        rw [h2] at h
        injection h with h
        obtain ⟨rfl, rfl⟩ : t = t1 + t2 ∧ l = l1 ++ l2 := by
          rw [Prod.mk.injEq] at h; exact ⟨h.1.symm, h.2.symm⟩
        rw [List.map_append, List.sum_append,
          processBillForPeriod_sum fuel b s e t1 l1 h1, ih fuel t2 l2 h2]

theorem insertSorted_perm (le : Bill → Bill → Bool) (x : Bill) :
    ∀ l : List Bill, (insertSorted le x l).Perm (x :: l) := by
  intro l
  induction l with
  | nil => exact List.Perm.refl _
  | cons y ys ih =>
    rw [insertSorted]
    by_cases hle : le x y = true
    · rw [if_pos hle]
    · rw [if_neg hle]
      exact (List.Perm.cons y ih).trans (List.Perm.swap x y ys)

theorem sortBills_perm (le : Bill → Bill → Bool) :
    ∀ l : List Bill, (sortBills le l).Perm l := by
  intro l
  induction l with
  | nil => exact List.Perm.refl _
  | cons y ys ih =>
    exact (insertSorted_perm le y (sortBills le ys)).trans (List.Perm.cons y ih)

/-! ## Settling the specified properties -/

/-- Claim C1 (amended): for the monthly bill anchored 2024-01-31 with
    existingRecurring = true and reference date 2024-03-15, the resolver
    terminates for every sufficient fuel (no exception is modelled: the
    result is `some`) and returns 2024-03-29 — the anchor clamps to
    2024-02-29 and the following monthly advance keeps day 29. -/
theorem c1_monthly_edge_resolves_to_mar29 (fuel : Nat) :
    getActualNextDueDate (fuel + 3)
      ⟨"b1", "rent", 100, ⟨2024, 1, 31⟩, .monthly, true⟩
      ⟨2024, 3, 15⟩ = some ⟨2024, 3, 29⟩ := rfl

/-- Claim C1 counterexample: the resolver returns 2024-03-29, which is
    neither 2024-02-29 nor 2024-03-31, so the claimed two-policy
    disjunction fails on the code. -/
theorem c1_not_feb29_or_mar31 :
    getActualNextDueDate 3 ⟨"b1", "rent", 100, ⟨2024, 1, 31⟩, .monthly, true⟩
      ⟨2024, 3, 15⟩ = some ⟨2024, 3, 29⟩ ∧
    some (⟨2024, 3, 29⟩ : YMD) ≠ some ⟨2024, 2, 29⟩ ∧
    some (⟨2024, 3, 29⟩ : YMD) ≠ some ⟨2024, 3, 31⟩ := by decide

/-- Claim C2 (amended): whenever the pay-period locator terminates with a
    window (s, e), the reference date satisfies e ≥ R for every frequency,
    and for the weekly and bi-weekly frequencies with an anchor not after
    R also s ≤ R; R = e occurs exactly when R falls on a payday boundary,
    and the monthly case does not guarantee s ≤ R (JavaScript day-of-month
    rollover can place s after R). -/
theorem c2_locator_window_bounds (fuel : Nat) (pf : PayFrequency)
    (lastPayday today s e : YMD) (hanchor : isBefore today lastPayday = false)
    (h : locatePayPeriod fuel pf lastPayday today = some (s, e)) :
    isBefore e today = false ∧ (pf ≠ .monthly → isBefore today s = false) := by
  cases pf with
  | weekly =>
    simp only [locatePayPeriod] at h
    obtain ⟨h1, h2⟩ := rollWindow_spec _ today fuel _ _ _ _ h
    exact ⟨h1, fun _ => h2 hanchor⟩
  | biWeekly =>
    simp only [locatePayPeriod] at h
    obtain ⟨h1, h2⟩ := rollWindow_spec _ today fuel _ _ _ _ h
    exact ⟨h1, fun _ => h2 hanchor⟩
  | monthly =>
    simp only [locatePayPeriod] at h
    obtain ⟨h1, _⟩ := rollWindow_spec _ today fuel _ _ _ _ h
    exact ⟨h1, fun hm => absurd rfl hm⟩

/-- Claim C2 witness: a weekly configuration on which the amended bounds
    are obtained from `c2_locator_window_bounds`. -/
theorem c2_locator_window_bounds_witness :
    isBefore ⟨2024, 1, 10⟩ ⟨2024, 1, 1⟩ = false ∧
    locatePayPeriod 5 .weekly ⟨2024, 1, 1⟩ ⟨2024, 1, 10⟩ =
      some (⟨2024, 1, 8⟩, ⟨2024, 1, 15⟩) ∧
    (isBefore ⟨2024, 1, 15⟩ ⟨2024, 1, 10⟩ = false ∧
      (PayFrequency.weekly ≠ .monthly → isBefore ⟨2024, 1, 10⟩ ⟨2024, 1, 8⟩ = false)) :=
  ⟨by decide, by decide,
    c2_locator_window_bounds 5 .weekly ⟨2024, 1, 1⟩ ⟨2024, 1, 10⟩ ⟨2024, 1, 8⟩
      ⟨2024, 1, 15⟩ (by decide) (by decide)⟩

/-- Claim C2 counterexample: with a weekly anchor 2024-01-01 and reference
    date 2024-01-08 (a payday boundary) the computed window ends exactly at
    the reference date, refuting the strict bound R < periodEnd; and with a
    monthly anchor 2024-01-31 and reference date 2025-02-01 the computed
    window starts at 2025-02-03, after the reference date, refuting
    periodStart ≤ R for the monthly case. -/
theorem c2_boundary_violations :
    locatePayPeriod 5 .weekly ⟨2024, 1, 1⟩ ⟨2024, 1, 8⟩ =
      some (⟨2024, 1, 1⟩, ⟨2024, 1, 8⟩) ∧
    isBefore ⟨2024, 1, 8⟩ ⟨2024, 1, 8⟩ = false ∧
    locatePayPeriod 5 .monthly ⟨2024, 1, 31⟩ ⟨2025, 2, 1⟩ =
      some (⟨2025, 2, 3⟩, ⟨2025, 3, 3⟩) ∧
    isBefore ⟨2025, 2, 1⟩ ⟨2025, 2, 3⟩ = true := by decide

/-- Claim C3 (amended): for every valid date the advancer and its inverse
    are exact inverses under the week-based frequencies (weekly, bi-weekly,
    tri-weekly); under the monthly frequency the inverse laws hold whenever
    the day-of-month is at most 28, but fail at end-of-month dates. -/
theorem c3_inverse_laws_amended (d : YMD) (hd : d.Valid) :
    (∀ f, weekBased f →
      calculateNextOccurrence (calculatePreviousOccurrence d f) f = d ∧
      calculatePreviousOccurrence (calculateNextOccurrence d f) f = d) ∧
    (d.day ≤ 28 →
      calculateNextOccurrence (calculatePreviousOccurrence d .monthly) .monthly = d ∧
      calculatePreviousOccurrence (calculateNextOccurrence d .monthly) .monthly = d) := by
  constructor
  · intro f hf; exact ⟨week_next_prev hd hf, week_prev_next hd hf⟩
  · intro h28
    constructor
    · show addMonthsInt (subMonthsInt d 1) 1 = d
      exact addMonthsInt_subMonthsInt_of_day_le hd h28
    · show subMonthsInt (addMonthsInt d 1) 1 = d
      exact subMonthsInt_addMonthsInt_of_day_le hd h28

/-- Claim C3 witness: the amended inverse laws obtained at 2024-05-10. -/
theorem c3_inverse_laws_amended_witness :
    YMD.Valid ⟨2024, 5, 10⟩ ∧
    ((∀ f, weekBased f →
      calculateNextOccurrence (calculatePreviousOccurrence ⟨2024, 5, 10⟩ f) f =
        ⟨2024, 5, 10⟩ ∧
      calculatePreviousOccurrence (calculateNextOccurrence ⟨2024, 5, 10⟩ f) f =
        ⟨2024, 5, 10⟩) ∧
    ((⟨2024, 5, 10⟩ : YMD).day ≤ 28 →
      calculateNextOccurrence (calculatePreviousOccurrence ⟨2024, 5, 10⟩ .monthly)
        .monthly = ⟨2024, 5, 10⟩ ∧
      calculatePreviousOccurrence (calculateNextOccurrence ⟨2024, 5, 10⟩ .monthly)
        .monthly = ⟨2024, 5, 10⟩)) :=
  ⟨by decide, c3_inverse_laws_amended ⟨2024, 5, 10⟩ (by decide)⟩

/-- Claim C3 counterexample: under the monthly frequency at the end-of-month
    date 2024-01-31 the inverse law previous(next(d)) = d fails
    (next gives 2024-02-29, previous returns 2024-01-29). -/
theorem c3_monthly_end_of_month_fails :
    calculatePreviousOccurrence (calculateNextOccurrence ⟨2024, 1, 31⟩ .monthly)
      .monthly ≠ ⟨2024, 1, 31⟩ := by decide

/-- Claim C4: at the failing input (monthly pay anchored 2024-01-31, current
    month March 2024) the code computes a monthly income of 0 even though
    2024-03-31 — an occurrence of the anchor day-of-month 31 — lies within
    the current calendar month, so the claim "income equals payAmount exactly
    when one payday lands within the month" is violated by the code. -/
theorem c4_march_payday_missed :
    calculatedMonthlyIncome 10 1000 ⟨2024, 1, 31⟩ .monthly
      (startOfMonth ⟨2024, 3, 15⟩) (endOfMonth ⟨2024, 3, 15⟩) = some 0 ∧
    withinInterval ⟨2024, 3, 31⟩ (startOfMonth ⟨2024, 3, 15⟩)
      (endOfMonth ⟨2024, 3, 15⟩) = true ∧
    (⟨2024, 3, 31⟩ : YMD).day = (⟨2024, 1, 31⟩ : YMD).day := by decide

/-- Claim C5: every due-bill entry produced by the pay-period aggregation
    over the window [s, e) has its occurrence date in the half-open window:
    s ≤ date and date < e; in particular no counted occurrence equals e. -/
theorem c5_half_open_window (fuel : Nat) (bills : List Bill) (s e : YMD)
    (he : e.Valid) (t : Int) (l : List Bill)
    (h : aggregateBills fuel bills s e = some (t, l)) :
    ∀ b' ∈ l, isBefore b'.nextDueDate s = false ∧ isBefore b'.nextDueDate e = true :=
  aggregateBills_mem s e he bills fuel t l h

/-- Claim C5 witness: a one-time bill aggregated over [2024-06-01, 2024-07-01). -/
theorem c5_half_open_window_witness :
    YMD.Valid ⟨2024, 7, 1⟩ ∧
    aggregateBills 3 [⟨"b2", "ot", 50, ⟨2024, 6, 10⟩, .oneTime, false⟩]
      ⟨2024, 6, 1⟩ ⟨2024, 7, 1⟩ =
      some (50, [⟨"b2", "ot", 50, ⟨2024, 6, 10⟩, .oneTime, false⟩]) ∧
    (∀ b' ∈ [(⟨"b2", "ot", 50, ⟨2024, 6, 10⟩, .oneTime, false⟩ : Bill)],
      isBefore b'.nextDueDate ⟨2024, 6, 1⟩ = false ∧
      isBefore b'.nextDueDate ⟨2024, 7, 1⟩ = true) :=
  ⟨by decide, by decide,
    c5_half_open_window 3 [⟨"b2", "ot", 50, ⟨2024, 6, 10⟩, .oneTime, false⟩]
      ⟨2024, 6, 1⟩ ⟨2024, 7, 1⟩ (by decide) 50 _ (by decide)⟩

/-- Claim C6: on valid dates the advancer strictly changes the date for
    weekly, bi-weekly, tri-weekly and monthly frequencies, and returns the
    date unchanged exactly for the one-time frequency. -/
theorem c6_strict_advance_iff_one_time (d : YMD) (hd : d.Valid)
    (f : BillFrequency) :
    calculateNextOccurrence d f = d ↔ f = .oneTime := by
  constructor
  · intro h
    by_contra hne
    have hs := next_strict hd hne
    rw [h] at hs
    rw [isBefore_irrefl] at hs
    exact absurd hs (by simp)
  · intro h; subst h; rfl

/-- Claim C6 witness: the equivalence at 2024-05-10 under weekly. -/
theorem c6_strict_advance_iff_one_time_witness :
    YMD.Valid ⟨2024, 5, 10⟩ ∧
    (calculateNextOccurrence ⟨2024, 5, 10⟩ .weekly = ⟨2024, 5, 10⟩ ↔
      BillFrequency.weekly = .oneTime) :=
  ⟨by decide, c6_strict_advance_iff_one_time ⟨2024, 5, 10⟩ (by decide) .weekly⟩

/-- Claim C7: a one-time bill resolves to its anchor for every reference
    date, fuel and existing-recurring flag; the pay-period aggregation
    counts it at most once and never advances it (every produced entry
    keeps the anchor date); and the monthly aggregation contributes its
    amount exactly when the anchor lies in the month. -/
theorem c7_one_time_invariant (fuel fuel2 fuel3 : Nat) (bill : Bill)
    (todayDate s e ms me : YMD) (h : bill.frequency = .oneTime) :
    getActualNextDueDate fuel bill todayDate = some bill.nextDueDate ∧
    (∀ t l, processBillForPeriod fuel2 bill s e = some (t, l) →
      l.length ≤ 1 ∧ ∀ b' ∈ l, b'.nextDueDate = bill.nextDueDate) ∧
    processBillForMonth fuel3 bill ms me =
      some (if withinInterval bill.nextDueDate ms me then bill.amount else 0) := by
  refine ⟨?_, ?_, ?_⟩
  · rw [getActualNextDueDate, if_pos h]
  · intro t l hp
    rw [processBillForPeriod, if_pos h] at hp
    injection hp with hp
    by_cases hW : withinInterval (startOfDay bill.nextDueDate) s (prevDay e) = true
    · rw [if_pos hW] at hp
      obtain rfl : l = [{ bill with nextDueDate := startOfDay bill.nextDueDate }] :=
        (congrArg Prod.snd hp).symm
      refine ⟨by simp, ?_⟩
      intro b' hb'
      obtain rfl : b' = { bill with nextDueDate := startOfDay bill.nextDueDate } :=
        List.mem_singleton.mp hb'
      rfl
    · rw [if_neg hW] at hp
      obtain rfl : l = [] := (congrArg Prod.snd hp).symm
      exact ⟨by simp, fun b' hb' => absurd hb' (List.not_mem_nil b')⟩
  · rw [processBillForMonth, if_pos h, startOfDay_eq]

/-- Claim C7 witness: a one-time bill (with the existing-recurring flag even
    set) behaves as a single occurrence everywhere. -/
theorem c7_one_time_invariant_witness :
    (Bill.frequency ⟨"b2", "ot", 50, ⟨2024, 6, 10⟩, .oneTime, true⟩ = .oneTime) ∧
    (getActualNextDueDate 1 ⟨"b2", "ot", 50, ⟨2024, 6, 10⟩, .oneTime, true⟩
        ⟨2024, 1, 1⟩ = some ⟨2024, 6, 10⟩ ∧
      (∀ t l, processBillForPeriod 1 ⟨"b2", "ot", 50, ⟨2024, 6, 10⟩, .oneTime, true⟩
          ⟨2024, 6, 1⟩ ⟨2024, 7, 1⟩ = some (t, l) →
        l.length ≤ 1 ∧ ∀ b' ∈ l, b'.nextDueDate = ⟨2024, 6, 10⟩) ∧
      processBillForMonth 1 ⟨"b2", "ot", 50, ⟨2024, 6, 10⟩, .oneTime, true⟩
          ⟨2024, 6, 1⟩ ⟨2024, 6, 30⟩ =
        some (if withinInterval ⟨2024, 6, 10⟩ ⟨2024, 6, 1⟩ ⟨2024, 6, 30⟩ then 50 else 0)) :=
  ⟨rfl, c7_one_time_invariant 1 1 1 _ ⟨2024, 1, 1⟩ ⟨2024, 6, 1⟩ ⟨2024, 7, 1⟩
    ⟨2024, 6, 1⟩ ⟨2024, 6, 30⟩ rfl⟩

/-- Claim C8: with no pay-period configuration, or a configuration without
    an anchor date, the main derivation returns the neutral state — null
    leftover, null window, null monthly summary and an empty due list —
    for every fuel, bill collection and reference date. -/
theorem c8_missing_config_neutral (fuel : Nat) (cfg? : Option PayPeriodConfig)
    (bills : List Bill) (today : YMD)
    (h : cfg? = none ∨ ∃ cfg, cfg? = some cfg ∧ cfg.lastPayday = none) :
    computeOutputs fuel cfg? bills today = some ⟨none, none, none, []⟩ := by
  rcases h with rfl | ⟨cfg, rfl, hlp⟩
  · rfl
  · simp only [computeOutputs, hlp]

/-- Claim C8 witness: the neutral state at a concrete input with no
    configuration. -/
theorem c8_missing_config_neutral_witness :
    ((none : Option PayPeriodConfig) = none ∨
      ∃ cfg, (none : Option PayPeriodConfig) = some cfg ∧ cfg.lastPayday = none) ∧
    computeOutputs 1 none [] ⟨2024, 1, 1⟩ = some ⟨none, none, none, []⟩ :=
  ⟨Or.inl rfl, c8_missing_config_neutral 1 none [] ⟨2024, 1, 1⟩ (Or.inl rfl)⟩

/-- Claim C9 (amended): anchor resolution is idempotent — re-resolving the
    bill whose anchor is replaced by the first result returns that same
    result — for one-time bills, for bills with existingRecurring = false of
    any frequency, and for existingRecurring = true bills of the week-based
    frequencies, for valid anchors and valid reference dates not before the
    1900-01-01 guard floor; it fails for existingRecurring = true monthly
    bills. -/
theorem c9_resolve_idempotent_amended (bill : Bill) (R : YMD) (fuel : Nat)
    (d : YMD) (hv : bill.nextDueDate.Valid) (hR : R.Valid)
    (h1900 : isBefore R d1900 = false)
    (hclass : bill.frequency = .oneTime ∨ bill.isExistingRecurring = false ∨
      weekBased bill.frequency)
    (hres : getActualNextDueDate fuel bill R = some d)
    (fuel2 : Nat) (hfuel2 : 2 ≤ fuel2) :
    getActualNextDueDate fuel2 { bill with nextDueDate := d } R = some d := by
  by_cases hone : bill.frequency = .oneTime
  · rw [getActualNextDueDate, if_pos hone] at hres
    injection hres with hres
    subst hres
    rw [getActualNextDueDate]
    rw [if_pos (show ({ bill with nextDueDate := bill.nextDueDate } : Bill).frequency
      = .oneTime from hone)]
  · rw [getActualNextDueDate, if_neg hone] at hres
    simp only [startOfDay_eq] at hres
    by_cases hex : bill.isExistingRecurring = true
    · have hweek : weekBased bill.frequency := by
        rcases hclass with h | h | h
        · exact absurd h hone
        · rw [hex] at h; exact absurd h (by simp)
        · exact h
      rw [if_pos hex] at hres
      have hkey : d.Valid ∧ isBefore d R = false ∧
          isBefore (calculatePreviousOccurrence d bill.frequency) R = true := by
        by_cases hlt : isBefore bill.nextDueDate R = true
        · rw [if_pos hlt] at hres
          exact rollForward_week_spec hweek fuel _ _ hv hlt hres
        · rw [if_neg hlt] at hres
          obtain ⟨x, hwb, hpost⟩ := Option.map_eq_some'.mp hres
          obtain ⟨hxv, hp1, hp2⟩ := walkBack1_spec hweek hR h1900 fuel _ x hv
            (Or.inl (Bool.eq_false_iff.mpr hlt)) hwb
          by_cases hxR : isBefore x R = true
          · have hd : d = calculateNextOccurrence x bill.frequency := by
              rw [← hpost, if_pos hxR]
            subst hd
            refine ⟨valid_next hxv _, hp1 hxR, ?_⟩
            rw [week_prev_next hxv hweek]
            exact hxR
          · have hd : d = x := by rw [← hpost, if_neg hxR]
            subst hd
            exact ⟨hxv, Bool.eq_false_iff.mpr hxR, hp2 (Bool.eq_false_iff.mpr hxR)⟩
      obtain ⟨hdv, hdge, hdprev⟩ := hkey
      rw [getActualNextDueDate]
      rw [if_neg (show ¬(({ bill with nextDueDate := d } : Bill).frequency
        = .oneTime) from hone)]
      rw [if_pos (show ({ bill with nextDueDate := d } : Bill).isExistingRecurring
        = true from hex)]
      simp only [startOfDay_eq]
      rw [if_neg (show ¬(isBefore d R = true) by rw [hdge]; exact Bool.false_ne_true)]
      exact walkBack1_refind hweek hR hdv hdge hdprev h1900 hfuel2
    · rw [if_neg hex] at hres
      obtain ⟨hdv, hdge⟩ := rollForward_spec hone fuel _ _ hv hres
      rw [getActualNextDueDate]
      rw [if_neg (show ¬(({ bill with nextDueDate := d } : Bill).frequency
        = .oneTime) from hone)]
      rw [if_neg (show ¬(({ bill with nextDueDate := d } : Bill).isExistingRecurring
        = true) from hex)]
      simp only [startOfDay_eq]
      exact rollForward_stay hdge (by omega)

/-- Claim C9 witness: idempotence obtained concretely for an existing
    recurring weekly bill anchored 2024-01-01 with reference 2024-01-10. -/
theorem c9_resolve_idempotent_amended_witness :
    getActualNextDueDate 2
      { (⟨"b1", "w", 10, ⟨2024, 1, 1⟩, .weekly, true⟩ : Bill) with
        nextDueDate := ⟨2024, 1, 15⟩ } ⟨2024, 1, 10⟩ = some ⟨2024, 1, 15⟩ :=
  c9_resolve_idempotent_amended ⟨"b1", "w", 10, ⟨2024, 1, 1⟩, .weekly, true⟩
    ⟨2024, 1, 10⟩ 5 ⟨2024, 1, 15⟩ (by decide) (by decide) (by decide)
    (Or.inr (Or.inr (Or.inl rfl))) (by decide) 2 (by omega)

/-- Claim C9 counterexample: an existing recurring monthly bill anchored at
    the reference date 2023-03-31 first resolves to 2023-03-28, and
    re-resolving from that anchor yields 2023-04-28 — resolution is not
    idempotent for existing monthly bills. -/
theorem c9_monthly_existing_not_idempotent :
    getActualNextDueDate 10 ⟨"b1", "x", 100, ⟨2023, 3, 31⟩, .monthly, true⟩
      ⟨2023, 3, 31⟩ = some ⟨2023, 3, 28⟩ ∧
    getActualNextDueDate 10 ⟨"b1", "x", 100, ⟨2023, 3, 28⟩, .monthly, true⟩
      ⟨2023, 3, 31⟩ = some ⟨2023, 4, 28⟩ ∧
    some (⟨2023, 3, 28⟩ : YMD) ≠ some ⟨2023, 4, 28⟩ := by decide

/-- Claim C10: whenever the pay-period computation runs, the reported
    leftover equals payAmount minus the sum of the amounts of the due-bill
    entries (one entry per in-window occurrence of each bill), with no
    clamping: the leftover is negative whenever that sum exceeds payAmount. -/
theorem c10_leftover_equals_pay_minus_bills (fuel : Nat) (cfg : PayPeriodConfig)
    (bills : List Bill) (today : YMD) (out : Outputs)
    (h : computeOutputs fuel (some cfg) bills today = some out)
    (L : Int) (hL : out.leftoverMoney = some L) :
    L = cfg.payAmount - (out.billsDueThisPayPeriod.map Bill.amount).sum ∧
    (cfg.payAmount < (out.billsDueThisPayPeriod.map Bill.amount).sum → L < 0) := by
  cases hlp : cfg.lastPayday with
  | none =>
    simp only [computeOutputs, hlp] at h
    injection h with h
    rw [← h] at hL
    exact absurd hL (by simp)
  | some lastPayday =>
    simp only [computeOutputs, hlp] at h
    cases hloc : locatePayPeriod fuel cfg.payFrequency lastPayday (startOfDay today) with
    | none => simp only [hloc] at h; exact Option.noConfusion h
    | some w =>
      obtain ⟨ps, pe⟩ := w
      simp only [hloc] at h
      cases hagg : aggregateBills fuel bills ps pe with
      | none => simp only [hagg] at h; exact Option.noConfusion h
      | some p =>
        obtain ⟨total, due⟩ := p
        simp only [hagg] at h
        cases hinc : calculatedMonthlyIncome fuel cfg.payAmount (startOfDay lastPayday)
            cfg.payFrequency (startOfDay (startOfMonth (startOfDay today)))
            (startOfDay (endOfMonth (startOfDay today))) with
        | none => simp only [hinc] at h; exact Option.noConfusion h
        | some income =>
          simp only [hinc] at h
          cases hmb : monthlyBillsTotal fuel bills
              (startOfDay (startOfMonth (startOfDay today)))
              (startOfDay (endOfMonth (startOfDay today))) with
          | none => simp only [hmb] at h; exact Option.noConfusion h
          | some monthBills =>
            simp only [hmb] at h
            injection h with h
            rw [← h] at hL
            simp only at hL
            injection hL with hL
            have hsum : total = (due.map Bill.amount).sum :=
              aggregateBills_sum ps pe bills fuel total due hagg
            have hperm : ((sortBills dueDateLE due).map Bill.amount).sum =
                (due.map Bill.amount).sum :=
              List.Perm.sum_eq (List.Perm.map Bill.amount (sortBills_perm dueDateLE due))
            have hdue : out.billsDueThisPayPeriod = sortBills dueDateLE due := by
              rw [← h]
            rw [hdue, hperm, ← hsum, ← hL]
            exact ⟨rfl, fun hgt => by linarith⟩

/-- Claim C10 witness: a concrete run — bi-weekly pay of 1000 anchored
    2024-01-05, one one-time 50 bill due 2024-06-05, evaluated 2024-06-05 —
    on which the leftover equality is obtained. -/
theorem c10_leftover_equals_pay_minus_bills_witness :
    computeOutputs 15 (some ⟨1000, some ⟨2024, 1, 5⟩, .biWeekly⟩)
      [⟨"b2", "ot", 50, ⟨2024, 6, 5⟩, .oneTime, false⟩] ⟨2024, 6, 5⟩ =
      some ⟨some 950, some (⟨2024, 5, 24⟩, ⟨2024, 6, 7⟩), some ⟨2000, 50, 1950⟩,
        [⟨"b2", "ot", 50, ⟨2024, 6, 5⟩, .oneTime, false⟩]⟩ ∧
    ((950 : Int) = 1000 -
      (([⟨"b2", "ot", 50, ⟨2024, 6, 5⟩, .oneTime, false⟩] : List Bill).map
        Bill.amount).sum ∧
      ((1000 : Int) <
        (([⟨"b2", "ot", 50, ⟨2024, 6, 5⟩, .oneTime, false⟩] : List Bill).map
          Bill.amount).sum → (950 : Int) < 0)) :=
  ⟨by decide,
    c10_leftover_equals_pay_minus_bills 15 ⟨1000, some ⟨2024, 1, 5⟩, .biWeekly⟩
      [⟨"b2", "ot", 50, ⟨2024, 6, 5⟩, .oneTime, false⟩] ⟨2024, 6, 5⟩
      ⟨some 950, some (⟨2024, 5, 24⟩, ⟨2024, 6, 7⟩), some ⟨2000, 50, 1950⟩,
        [⟨"b2", "ot", 50, ⟨2024, 6, 5⟩, .oneTime, false⟩]⟩ (by decide) 950 rfl⟩
